import Mathlib

/-!
Shallow embedding of src/isbn.rs from the isbnid-rs repository.

Strings are modelled as `List Char` (all inputs of interest are ASCII, so
byte slicing in Rust coincides with character slicing). Fallible points of
the Rust code (the `unwrap` calls on `u64::from_str`, out-of-range byte
slicing, and the `assert!(false)` dead branch) are modelled with `Option`:
`none` stands for a panic. Machine integers (`u64`) are modelled as `Nat`;
the only subtraction in the code, `100000000000000000u64 - d` in `digit13`,
cannot underflow because `d` is at most 324, which is proved below, so the
truncated `Nat` subtraction agrees with the `u64` subtraction.
-/

namespace IsbnId

/-- The four error variants of `ISBNError` in src/isbn.rs. -/
inductive ISBNError where
  | Format
  | CheckDigit
  | Bookland
  | Range
deriving DecidableEq

/-- The `ISBN` struct of src/isbn.rs: it stores the canonical 13-digit form. -/
structure ISBN where
  id : List Char
deriving DecidableEq

/-- Value of an ASCII digit character, `c as u64 - 48`. -/
def charVal (c : Char) : Nat := c.toNat - 48

/-- The regex class `\d` on an ASCII string: the characters 0-9. -/
def isDigitCh (c : Char) : Bool := decide (48 ≤ c.toNat ∧ c.toNat ≤ 57)

/-- The regex alternative `(-| )`: a hyphen or a space separator. -/
def isSep (c : Char) : Bool := c == '-' || c == ' '

/-- Rust `str::is_ascii` for one character: code point at most 0x7F. -/
def isAsciiCh (c : Char) : Bool := decide (c.toNat ≤ 127)

/-- Rust `str::is_ascii` (line 94 of src/isbn.rs). -/
def isAsciiStr (l : List Char) : Bool := l.all isAsciiCh

/-- Rust `str::to_uppercase` restricted to ASCII input (the code applies it
only after the `is_ascii` check has passed). -/
def toUpperAscii (c : Char) : Char :=
  if 97 ≤ c.toNat ∧ c.toNat ≤ 122 then Char.ofNat (c.toNat - 32) else c

/-- A character kept by `reis.replace_all`: the complement of the regex
class `[^0-9X]`, so the digits and the letter X. -/
def keepCh (c : Char) : Bool := isDigitCh c || c == 'X'

/-- Line 98 of src/isbn.rs: uppercase the input, then delete every character
matching `[^0-9X]`. -/
def stripISBN (l : List Char) : List Char :=
  (l.map toUpperAscii).filter keepCh

/-- Rust slice `&l[a..b]`: `none` models the panic when the range is out of
bounds. -/
def slice (l : List Char) (a b : Nat) : Option (List Char) :=
  if a ≤ b ∧ b ≤ l.length then some ((l.drop a).take (b - a)) else none

/-- The value of `u64::from_str` on a list of ASCII digit characters,
folding from the left. -/
def parseVal (l : List Char) : Nat :=
  l.foldl (fun a c => 10 * a + charVal c) 0

/-- Rust `u64::from_str(..)` followed by `.unwrap()`: succeeds on a
nonempty all-digit string whose value fits in a `u64`, panics (`none`)
otherwise. -/
def parseU64 (l : List Char) : Option Nat :=
  if l ≠ [] ∧ l.all isDigitCh = true ∧ parseVal l < 18446744073709551616 then
    some (parseVal l)
  else none

/-- The loop of `digit10` (lines 64-67 of src/isbn.rs): the fuel argument
is `10 - i` for the Rust loop variable `i`, so the weight of the digit
peeled at fuel `f + 1` is `f + 1`. -/
def loop10 : Nat → Nat → Nat → Nat
  | 0, _, d => d
  | f + 1, n, d => loop10 f (n / 10) (d + (f + 1) * (n % 10))

/-- The loop of `digit13` (lines 75-78 of src/isbn.rs): the fuel argument
is `13 - i` for the Rust loop variable `i`, and the weight
`1 + 2 * (i % 2)` at fuel `f + 1` equals `1 + 2 * (f % 2)`. -/
def loop13 : Nat → Nat → Nat → Nat
  | 0, _, d => d
  | f + 1, n, d => loop13 f (n / 10) (d + (1 + 2 * (f % 2)) * (n % 10))

/-- `digit10` of src/isbn.rs (lines 60-69): parse `&id[0..9]`, run the
weighted loop, reduce mod 11. `none` models the panics of the slice and of
the `unwrap`. -/
def digit10 (id : List Char) : Option Nat :=
  (slice id 0 9).bind fun s =>
    (parseU64 s).map fun n => loop10 9 n 0 % 11

/-- `digit13` of src/isbn.rs (lines 71-81): parse `&id[0..12]`, run the
weighted loop, and return `(100000000000000000u64 - d) % 10` (the comment
in the source calls this a kludge for the unsigned negative module). -/
def digit13 (id : List Char) : Option Nat :=
  (slice id 0 12).bind fun s =>
    (parseU64 s).map fun n => (100000000000000000 - loop13 12 n 0) % 10

/-- Total value of `digit10` on a string whose first nine characters are
digits; equals the `some`-value of `digit10` there. -/
def digit10V (l : List Char) : Nat := loop10 9 (parseVal (l.take 9)) 0 % 11

/-- Total value of `digit13` on a string whose first twelve characters are
digits; equals the `some`-value of `digit13` there. -/
def digit13V (l : List Char) : Nat :=
  (100000000000000000 - loop13 12 (parseVal (l.take 12)) 0) % 10

/-- The list of characters of the string literal `"978"`. -/
def p978 : List Char := ['9', '7', '8']

/-- The list of characters of the string literal `"979"`. -/
def p979 : List Char := ['9', '7', '9']

/-- Decimal rendering of a `Nat`, as `format!` renders a `u64`; the fuel
argument strictly dominates the number of digits. -/
def natToDigitsAux : Nat → Nat → List Char → List Char
  | 0, _, acc => acc
  | fuel + 1, n, acc =>
    if n < 10 then Char.ofNat (48 + n) :: acc
    else natToDigitsAux fuel (n / 10) (Char.ofNat (48 + n % 10) :: acc)

/-- Decimal rendering of a `Nat`, as `format!("{}", n)` renders a `u64`. -/
def natToDigits (n : Nat) : List Char := natToDigitsAux (n + 1) n []

/-- One repetition of the regex group `(\d(-| )?)`: a digit followed by an
optional separator. Because every regex alternative that can follow such a
group begins with a digit or with the letter x or X, never with a
separator, absorbing the separator greedily is the only way a match can
continue, so this deterministic reading recognises the same language. -/
def dropUnit : List Char → Option (List Char)
  | [] => none
  | c :: rest =>
    if isDigitCh c then
      match rest with
      | [] => some []
      | s :: rest2 => if isSep s then some rest2 else some (s :: rest2)
    else none

/-- `k` repetitions of the group `(\d(-| )?)`. -/
def dropUnits : Nat → List Char → Option (List Char)
  | 0, l => some l
  | k + 1, l => (dropUnit l).bind (dropUnits k)

/-- Whether a list is a single digit character, the regex alternative `\d`
taken against the end anchor. -/
def isDigit1 : List Char → Bool
  | [c] => isDigitCh c
  | _ => false

/-- The tail alternation `(x|X|\d|(\d(-| )?){3}\d)` of the format regex,
matched against the whole remaining input. -/
def tailMatch (l : List Char) : Bool :=
  decide (l = ['x']) || decide (l = ['X']) || isDigit1 l ||
    (match dropUnits 3 l with
     | some r => isDigit1 r
     | none => false)

/-- The anchored format regex of line 91 of src/isbn.rs,
`^(\d(-| )?){9}(x|X|\d|(\d(-| )?){3}\d)$`: nine digit units followed by
the tail alternation, consuming the whole input. -/
def matchFormat (l : List Char) : Bool :=
  match dropUnits 9 l with
  | some rest => tailMatch rest
  | none => false

/-- The length-13 branch of `ISBN::new` (lines 99-109 of src/isbn.rs). -/
def new13 (nid : List Char) : Option (Except ISBNError ISBN) :=
  match slice nid 0 3 with
  | none => none
  | some pre =>
    if pre ≠ p978 ∧ pre ≠ p979 then some (Except.error ISBNError.Bookland)
    else
      match slice nid 12 13 with
      | none => none
      | some cs =>
        match parseU64 cs, digit13 nid with
        | some c, some d =>
          if c ≠ d then some (Except.error ISBNError.CheckDigit)
          else some (Except.ok ⟨nid⟩)
        | _, _ => none

/-- The length-10 branch of `ISBN::new` (lines 110-124 of src/isbn.rs).
The canonical value stored on success is `"978" + &nid[0..9]` followed by
the rendered value of `digit13` of that 12-character body. -/
def new10 (nid : List Char) : Option (Except ISBNError ISBN) :=
  match slice nid 0 9, slice nid 9 10 with
  | some first9, some last1 =>
    if last1 = ['X'] then
      match digit10 nid with
      | none => none
      | some d =>
        if 10 ≠ d then some (Except.error ISBNError.CheckDigit)
        else
          match digit13 (p978 ++ first9) with
          | none => none
          | some d13 => some (Except.ok ⟨p978 ++ first9 ++ natToDigits d13⟩)
    else
      match parseU64 last1, digit10 nid with
      | some c, some d =>
        if c ≠ d then some (Except.error ISBNError.CheckDigit)
        else
          match digit13 (p978 ++ first9) with
          | none => none
          | some d13 => some (Except.ok ⟨p978 ++ first9 ++ natToDigits d13⟩)
      | _, _ => none
  | _, _ => none

/-- Dispatch of `ISBN::new` on the length of the stripped string; the final
`none` models the `assert!(false)` branch of lines 125-127 of src/isbn.rs. -/
def newStripped (nid : List Char) : Option (Except ISBNError ISBN) :=
  if nid.length = 13 then new13 nid
  else if nid.length = 10 then new10 nid
  else none

/-- `ISBN::new` (lines 90-128 of src/isbn.rs): reject with `Format` unless
the input is ASCII and matches the format regex, then strip and branch on
the stripped length. -/
def new (raw : List Char) : Option (Except ISBNError ISBN) :=
  if !(isAsciiStr raw) || !(matchFormat raw) then
    some (Except.error ISBNError.Format)
  else newStripped (stripISBN raw)

/-- `ISBN::isbn10` (lines 132-144 of src/isbn.rs): require the `"978"`
bookland, recompute `digit10` over `&id[3..12]`, and render a computed
value of 10 as the single letter X. -/
def isbn10 (x : ISBN) : Option (Except ISBNError (List Char)) :=
  match slice x.id 0 3 with
  | none => none
  | some pre =>
    if pre ≠ p978 then some (Except.error ISBNError.Bookland)
    else
      match slice x.id 3 12 with
      | none => none
      | some body =>
        match digit10 body with
        | none => none
        | some check10 =>
          if check10 = 10 then some (Except.ok (body ++ ['X']))
          else some (Except.ok (body ++ natToDigits check10))

/-- `ISBN::isbn13` (lines 147-149 of src/isbn.rs): the stored canonical
string, verbatim. -/
def isbn13 (x : ISBN) : List Char := x.id

/-- `ISBN::urn` (lines 161-163 of src/isbn.rs). -/
def urn (x : ISBN) : List Char :=
  ['U', 'R', 'N', ':', 'I', 'S', 'B', 'N', ':'] ++ x.id

/-- `ISBN::hyphen` (lines 152-158 of src/isbn.rs), parametrised by the
external Range Segmenter `hyphen::segments`, which is not part of this
repository under src/ and is passed in as a function argument. -/
def hyphen (seg : List Char → Nat × Nat × Nat) (x : ISBN) :
    Option (Except ISBNError (List Char)) :=
  match seg x.id with
  | (grp, reg, pbl) =>
    if grp = 0 then some (Except.error ISBNError.Range)
    else
      match slice x.id 0 3, slice x.id 3 (3 + grp),
            slice x.id (3 + grp) (3 + grp + reg),
            slice x.id (12 - pbl) 12, slice x.id 12 13 with
      | some s0, some s1, some s2, some s3, some s4 =>
        some (Except.ok (List.intercalate ['-'] [s0, s1, s2, s3, s4]))
      | _, _, _, _, _ => none

/-- `ISBN::doi` (lines 166-172 of src/isbn.rs), parametrised by the same
external Range Segmenter. -/
def doi (seg : List Char → Nat × Nat × Nat) (x : ISBN) :
    Option (Except ISBNError (List Char)) :=
  match seg x.id with
  | (grp, reg, pbl) =>
    if grp = 0 then some (Except.error ISBNError.Range)
    else
      match slice x.id 0 3, slice x.id 3 (3 + grp + reg),
            slice x.id (12 - pbl) 13 with
      | some s0, some s1, some s2 =>
        some (Except.ok ('1' :: '0' :: '.' :: s0 ++ '.' :: s1 ++ '/' :: s2))
      | _, _, _ => none

/-- `ISBN::is_valid` (lines 175-180 of src/isbn.rs): run the constructor
and forget the value. -/
def is_valid (raw : List Char) : Option Bool :=
  (new raw).map fun r =>
    match r with
    | Except.ok _ => true
    | Except.error _ => false

/-- The construction invariant of the stored canonical string: length 13,
all digits, bookland 978 or 979, and the last character is the rendered
`digit13` checksum of the first twelve. -/
def InvP (id : List Char) : Prop :=
  id.length = 13 ∧ id.all isDigitCh = true ∧
    (id.take 3 = p978 ∨ id.take 3 = p979) ∧
    id.drop 12 = [Char.ofNat (48 + digit13V id)]

/-- Position-weighted digit sum with weights ascending from `w`: the digit
at offset `j` of the list receives weight `w + j`. At `w = 1` this weights
the digit at position `i`, 1-indexed from the left, by `i`. -/
def weightedSum10 : Nat → List Char → Nat
  | _, [] => 0
  | w, c :: r => w * charVal c + weightedSum10 (w + 1) r

/-- Alternating digit sum: the digit at offset `j` of the list receives
weight `1 + 2 * ((s + j) % 2)`. At `s = 0` the weights alternate
1, 3, 1, 3 and so on, starting with 1 at position 1 from the left. -/
def weightedSum13 : Nat → List Char → Nat
  | _, [] => 0
  | s, c :: r => (1 + 2 * (s % 2)) * charVal c + weightedSum13 (s + 1) r

/-- Modelled from the spec words for claim C1: weight the digit at position
`i`, 1-indexed from the left, by `10 - i`, over the first nine characters,
and reduce the sum mod 11. This is the literal reading of the sentence and
is compared against `digit10` as translated from the source. -/
def weightedSumLeft : Nat → List Char → Nat
  | _, [] => 0
  | w, c :: r => w * charVal c + weightedSumLeft (w - 1) r

/-- Modelled from the spec words for claim C1, see `weightedSumLeft`. -/
def digit10SpecLeft (l : List Char) : Nat := weightedSumLeft 9 (l.take 9) % 11

/-! ### Character lemmas -/

lemma isDigitCh_iff {c : Char} :
    isDigitCh c = true ↔ 48 ≤ c.toNat ∧ c.toNat ≤ 57 := by
  simp [isDigitCh]

lemma charVal_lt {c : Char} (hc : isDigitCh c = true) : charVal c < 10 := by
  rcases isDigitCh_iff.mp hc with ⟨h1, h2⟩
  unfold charVal
  omega

lemma digit_ne_X {c : Char} (hc : isDigitCh c = true) : c ≠ 'X' := by
  intro h
  subst h
  simp [isDigitCh] at hc

lemma digit_not_sep {c : Char} (hc : isDigitCh c = true) : isSep c = false := by
  rcases isDigitCh_iff.mp hc with ⟨h1, h2⟩
  have h3 : c ≠ '-' := by
    intro h; subst h; exact absurd h1 (by decide)
  have h4 : c ≠ ' ' := by
    intro h; subst h; exact absurd h1 (by decide)
  simp [isSep, h3, h4]

lemma char_eta {c : Char} (hc : isDigitCh c = true) :
    Char.ofNat (48 + charVal c) = c := by
  rcases isDigitCh_iff.mp hc with ⟨h1, _⟩
  have h : 48 + charVal c = c.toNat := by
    unfold charVal; omega
  rw [h, Char.ofNat_toNat]

lemma digitChar_isDigit {d : Nat} (hd : d < 10) :
    isDigitCh (Char.ofNat (48 + d)) = true := by
  interval_cases d <;> decide

lemma charVal_digitChar {d : Nat} (hd : d < 10) :
    charVal (Char.ofNat (48 + d)) = d := by
  interval_cases d <;> decide

lemma digitChar_inj {d : Nat} (hd : d < 10) {c : Char}
    (h : Char.ofNat (48 + d) = c) : charVal c = d := by
  subst h
  exact charVal_digitChar hd

lemma natToDigits_lt10 {d : Nat} (hd : d < 10) :
    natToDigits d = [Char.ofNat (48 + d)] := by
  unfold natToDigits natToDigitsAux
  simp [hd]

/-! ### Parsing lemmas -/

lemma parseVal_nil : parseVal [] = 0 := rfl

lemma parseVal_append (l : List Char) (c : Char) :
    parseVal (l ++ [c]) = 10 * parseVal l + charVal c := by
  unfold parseVal
  rw [List.foldl_append]
  rfl

lemma parseVal_lt {l : List Char} (h : l.all isDigitCh = true) :
    parseVal l < 10 ^ l.length := by
  induction l using List.reverseRecOn with
  | nil => simp [parseVal_nil]
  | append_singleton l c ih =>
    rw [List.all_append] at h
    simp only [Bool.and_eq_true, List.all_cons, List.all_nil,
      Bool.and_true] at h
    have hv : charVal c < 10 := charVal_lt h.2
    have hl : parseVal l < 10 ^ l.length := ih h.1
    rw [parseVal_append]
    simp only [List.length_append, List.length_cons, List.length_nil]
    rw [pow_succ]
    omega

lemma parseU64_eq {l : List Char} (hne : l ≠ [])
    (hd : l.all isDigitCh = true) (hlen : l.length ≤ 18) :
    parseU64 l = some (parseVal l) := by
  have h1 : parseVal l < 10 ^ l.length := parseVal_lt hd
  have h2 : (10 : Nat) ^ l.length ≤ 10 ^ 18 := Nat.pow_le_pow_right (by norm_num) hlen
  have h3 : parseVal l < 18446744073709551616 := by
    have : (10 : Nat) ^ 18 = 1000000000000000000 := by norm_num
    omega
  simp [parseU64, hne, hd, h3]

/-! ### Checksum loop lemmas -/

lemma weightedSum10_append (l : List Char) (w : Nat) (c : Char) :
    weightedSum10 w (l ++ [c]) =
      weightedSum10 w l + (w + l.length) * charVal c := by
  induction l generalizing w with
  | nil => simp [weightedSum10]
  | cons a r ih =>
    rw [List.cons_append]
    rw [show weightedSum10 w (a :: (r ++ [c])) =
          w * charVal a + weightedSum10 (w + 1) (r ++ [c]) from rfl]
    rw [show weightedSum10 w (a :: r) =
          w * charVal a + weightedSum10 (w + 1) r from rfl]
    rw [ih (w + 1), List.length_cons]
    ring

lemma weightedSum13_append (l : List Char) (s : Nat) (c : Char) :
    weightedSum13 s (l ++ [c]) =
      weightedSum13 s l + (1 + 2 * ((s + l.length) % 2)) * charVal c := by
  induction l generalizing s with
  | nil => simp [weightedSum13]
  | cons a r ih =>
    rw [List.cons_append]
    rw [show weightedSum13 s (a :: (r ++ [c])) =
          (1 + 2 * (s % 2)) * charVal a + weightedSum13 (s + 1) (r ++ [c]) from rfl]
    rw [show weightedSum13 s (a :: r) =
          (1 + 2 * (s % 2)) * charVal a + weightedSum13 (s + 1) r from rfl]
    rw [ih (s + 1), List.length_cons]
    have h2 : (s + 1 + r.length) % 2 = (s + (r.length + 1)) % 2 := by omega
    rw [h2]
    ring

lemma loop10_parse {l : List Char} (hd : l.all isDigitCh = true) (d : Nat) :
    loop10 l.length (parseVal l) d = d + weightedSum10 1 l := by
  induction l using List.reverseRecOn generalizing d with
  | nil => simp [parseVal_nil, loop10, weightedSum10]
  | append_singleton l c ih =>
    rw [List.all_append] at hd
    simp only [Bool.and_eq_true, List.all_cons, List.all_nil,
      Bool.and_true] at hd
    have hv : charVal c < 10 := charVal_lt hd.2
    have hmod : (10 * parseVal l + charVal c) % 10 = charVal c := by omega
    have hdiv : (10 * parseVal l + charVal c) / 10 = parseVal l := by omega
    rw [parseVal_append]
    simp only [List.length_append, List.length_cons, List.length_nil]
    show loop10 (l.length + 1) (10 * parseVal l + charVal c) d = _
    rw [loop10, hmod, hdiv, ih hd.1, weightedSum10_append]
    rw [Nat.add_comm 1 l.length]
    omega

lemma loop13_parse {l : List Char} (hd : l.all isDigitCh = true) (d : Nat) :
    loop13 l.length (parseVal l) d = d + weightedSum13 0 l := by
  induction l using List.reverseRecOn generalizing d with
  | nil => simp [parseVal_nil, loop13, weightedSum13]
  | append_singleton l c ih =>
    rw [List.all_append] at hd
    simp only [Bool.and_eq_true, List.all_cons, List.all_nil,
      Bool.and_true] at hd
    have hv : charVal c < 10 := charVal_lt hd.2
    have hmod : (10 * parseVal l + charVal c) % 10 = charVal c := by omega
    have hdiv : (10 * parseVal l + charVal c) / 10 = parseVal l := by omega
    rw [parseVal_append]
    simp only [List.length_append, List.length_cons, List.length_nil]
    show loop13 (l.length + 1) (10 * parseVal l + charVal c) d = _
    rw [loop13, hmod, hdiv, ih hd.1, weightedSum13_append]
    rw [Nat.zero_add]
    omega

lemma loop13_le (f n d : Nat) : loop13 f n d ≤ d + 27 * f := by
  induction f generalizing n d with
  | zero => simp [loop13]
  | succ f ih =>
    rw [loop13]
    have h1 : (1 + 2 * (f % 2)) ≤ 3 := by omega
    have h2 : n % 10 ≤ 9 := by omega
    have h3 : (1 + 2 * (f % 2)) * (n % 10) ≤ 27 := by
      calc (1 + 2 * (f % 2)) * (n % 10) ≤ 3 * 9 := Nat.mul_le_mul h1 h2
      _ = 27 := by norm_num
    have := ih (n / 10) (d + (1 + 2 * (f % 2)) * (n % 10))
    omega

lemma kludge_mod (n : Nat) :
    (100000000000000000 - loop13 12 n 0) % 10 =
      (10 - loop13 12 n 0 % 10) % 10 := by
  have h : loop13 12 n 0 ≤ 324 := by
    have := loop13_le 12 n 0
    omega
  omega

/-! ### Stripping lemmas -/

lemma stripISBN_nil : stripISBN [] = [] := rfl

lemma stripISBN_cons (c : Char) (l : List Char) :
    stripISBN (c :: l) =
      if keepCh (toUpperAscii c) then toUpperAscii c :: stripISBN l
      else stripISBN l := by
  simp [stripISBN, List.filter_cons]

lemma toUpper_digit {c : Char} (hc : isDigitCh c = true) : toUpperAscii c = c := by
  rcases isDigitCh_iff.mp hc with ⟨h1, h2⟩
  unfold toUpperAscii
  rw [if_neg]
  omega

lemma strip_cons_digit {c : Char} (hc : isDigitCh c = true) (l : List Char) :
    stripISBN (c :: l) = c :: stripISBN l := by
  rw [stripISBN_cons, toUpper_digit hc, if_pos]
  simp [keepCh, hc]

lemma strip_cons_sep {c : Char} (hc : isSep c = true) (l : List Char) :
    stripISBN (c :: l) = stripISBN l := by
  have h : c = '-' ∨ c = ' ' := by
    simpa [isSep] using hc
  rcases h with h | h <;> subst h <;>
    rw [stripISBN_cons, if_neg (by decide)]

lemma strip_cons_X (l : List Char) :
    stripISBN ('X' :: l) = 'X' :: stripISBN l := by
  rw [stripISBN_cons]
  norm_num [show toUpperAscii 'X' = 'X' from by decide,
    show keepCh 'X' = true from by decide]

lemma strip_id {l : List Char} (h : ∀ c ∈ l, isDigitCh c = true ∨ c = 'X') :
    stripISBN l = l := by
  induction l with
  | nil => rfl
  | cons c r ih =>
    have hr : stripISBN r = r := ih fun d hd => h d (List.mem_cons_of_mem c hd)
    rcases h c (List.mem_cons_self c r) with hc | hc
    · rw [strip_cons_digit hc, hr]
    · subst hc
      rw [strip_cons_X, hr]

/-! ### Regex structure lemmas -/

lemma dropUnit_strip {l r : List Char} (h : dropUnit l = some r) :
    ∃ c, isDigitCh c = true ∧ stripISBN l = c :: stripISBN r := by
  cases l with
  | nil => simp [dropUnit] at h
  | cons c rest =>
    by_cases hc : isDigitCh c = true
    · refine ⟨c, hc, ?_⟩
      rw [strip_cons_digit hc]
      cases rest with
      | nil =>
        simp only [dropUnit, hc, if_true, Option.some.injEq] at h
        subst h
        rfl
      | cons s rest2 =>
        by_cases hs : isSep s = true
        · simp only [dropUnit, hc, hs, if_true, Option.some.injEq] at h
          subst h
          rw [strip_cons_sep hs]
        · simp only [dropUnit, hc, hs, if_true, Bool.false_eq_true, if_false,
            Option.some.injEq] at h
          subst h
          rfl
    · simp [dropUnit, hc] at h

lemma dropUnits_strip : ∀ (k : Nat) {l r : List Char}, dropUnits k l = some r →
    ∃ ds, stripISBN l = ds ++ stripISBN r ∧ ds.length = k ∧
      ds.all isDigitCh = true := by
  intro k
  induction k with
  | zero =>
    intro l r h
    simp only [dropUnits, Option.some.injEq] at h
    subst h
    exact ⟨[], by simp⟩
  | succ k ih =>
    intro l r h
    simp only [dropUnits] at h
    cases hu : dropUnit l with
    | none => rw [hu] at h; simp at h
    | some l1 =>
      rw [hu] at h
      simp only [Option.some_bind] at h
      obtain ⟨c, hc, hstrip⟩ := dropUnit_strip hu
      obtain ⟨ds, h1, h2, h3⟩ := ih h
      exact ⟨c :: ds, by simp [hstrip, h1], by simp [h2], by simp [hc, h3]⟩

lemma isDigit1_iff {l : List Char} :
    isDigit1 l = true ↔ ∃ c, l = [c] ∧ isDigitCh c = true := by
  cases l with
  | nil => simp [isDigit1]
  | cons c rest =>
    cases rest with
    | nil => simp [isDigit1]
    | cons d rest2 => simp [isDigit1]

lemma dropUnits_digits : ∀ (k : Nat) (l : List Char),
    (l.take k).all isDigitCh = true → k ≤ l.length →
    (∀ c ∈ l, isSep c = false) → dropUnits k l = some (l.drop k) := by
  intro k
  induction k with
  | zero => intro l _ _ _; simp [dropUnits]
  | succ k ih =>
    intro l hd hk hs
    cases l with
    | nil => simp at hk
    | cons c rest =>
      simp only [List.take_succ_cons, List.all_cons, Bool.and_eq_true] at hd
      have hc : isDigitCh c = true := hd.1
      cases rest with
      | nil =>
        simp only [List.length_cons, List.length_nil] at hk
        have hk0 : k = 0 := by omega
        subst hk0
        rw [show dropUnits 1 [c] = (dropUnit [c]).bind (dropUnits 0) from rfl]
        simp [dropUnit, dropUnits, hc]
      | cons s rest2 =>
        have hsep : isSep s = false := hs s (by simp)
        have hrec := ih (s :: rest2) hd.2
          (by simpa [Nat.succ_le_succ_iff] using hk)
          (fun d hdm => hs d (List.mem_cons_of_mem c hdm))
        simp only [dropUnits, dropUnit, hc, hsep, if_true, Bool.false_eq_true,
          if_false, Option.some_bind, List.drop_succ_cons]
        rw [hrec]

/-- Structure of the stripped string of any input accepted by the format
regex: either ten characters, the first nine digits and the last a digit or
the letter X, or thirteen characters, all digits. -/
lemma format_strip {l : List Char} (h : matchFormat l = true) :
    ((stripISBN l).length = 10 ∧ ((stripISBN l).take 9).all isDigitCh = true ∧
      ∃ c, (stripISBN l).drop 9 = [c] ∧ (isDigitCh c = true ∨ c = 'X'))
    ∨ ((stripISBN l).length = 13 ∧ (stripISBN l).all isDigitCh = true) := by
  unfold matchFormat at h
  cases hu : dropUnits 9 l with
  | none => rw [hu] at h; simp at h
  | some rest =>
    rw [hu] at h
    obtain ⟨ds, h1, h2, h3⟩ := dropUnits_strip 9 hu
    unfold tailMatch at h
    simp only [Bool.or_eq_true, decide_eq_true_eq] at h
    rcases h with ((hx | hx) | hx) | hx
    · subst hx
      left
      rw [h1, show stripISBN ['x'] = ['X'] from by decide]
      refine ⟨by simp [h2], ?_, 'X', ?_, Or.inr rfl⟩
      · rw [List.take_left' h2]
        exact h3
      · rw [List.drop_left' h2]
    · subst hx
      left
      rw [h1, show stripISBN ['X'] = ['X'] from by decide]
      refine ⟨by simp [h2], ?_, 'X', ?_, Or.inr rfl⟩
      · rw [List.take_left' h2]
        exact h3
      · rw [List.drop_left' h2]
    · obtain ⟨c, hcl, hc⟩ := isDigit1_iff.mp hx
      subst hcl
      left
      rw [h1, strip_cons_digit hc, stripISBN_nil]
      refine ⟨by simp [h2], ?_, c, ?_, Or.inl hc⟩
      · rw [List.take_left' h2]
        exact h3
      · rw [List.drop_left' h2]
    · right
      cases hu3 : dropUnits 3 rest with
      | none => rw [hu3] at hx; simp at hx
      | some r2 =>
        rw [hu3] at hx
        obtain ⟨c, hcl, hc⟩ := isDigit1_iff.mp hx
        subst hcl
        obtain ⟨ds2, g1, g2, g3⟩ := dropUnits_strip 3 hu3
        rw [h1, g1, strip_cons_digit hc, stripISBN_nil]
        constructor
        · simp [h2, g2]
        · simp only [List.all_append, List.all_cons, List.all_nil,
            Bool.and_eq_true]
          exact ⟨h3, g3, hc, trivial⟩

/-! ### Slice and checksum evaluation lemmas -/

lemma slice_eq {l : List Char} {a b : Nat} (hab : a ≤ b) (hb : b ≤ l.length) :
    slice l a b = some ((l.drop a).take (b - a)) := by
  simp [slice, hab, hb]

lemma slice_zero {l : List Char} {b : Nat} (hb : b ≤ l.length) :
    slice l 0 b = some (l.take b) := by
  rw [slice_eq (Nat.zero_le b) hb]
  simp

lemma digit10_some {l : List Char} (h9 : (l.take 9).all isDigitCh = true)
    (hlen : 9 ≤ l.length) : digit10 l = some (digit10V l) := by
  have hne : l.take 9 ≠ [] := by
    have h := List.length_take 9 l
    intro hh
    rw [hh] at h
    simp at h
    omega
  have hl9 : (l.take 9).length ≤ 18 := by
    rw [List.length_take]
    omega
  rw [digit10, slice_zero hlen, Option.some_bind, parseU64_eq hne h9 hl9]
  rfl

lemma digit13_some {l : List Char} (h12 : (l.take 12).all isDigitCh = true)
    (hlen : 12 ≤ l.length) : digit13 l = some (digit13V l) := by
  have hne : l.take 12 ≠ [] := by
    have h := List.length_take 12 l
    intro hh
    rw [hh] at h
    simp at h
    omega
  have hl12 : (l.take 12).length ≤ 18 := by
    rw [List.length_take]
    omega
  rw [digit13, slice_zero hlen, Option.some_bind, parseU64_eq hne h12 hl12]
  rfl

lemma parseU64_single {c : Char} (hc : isDigitCh c = true) :
    parseU64 [c] = some (charVal c) := by
  rw [parseU64_eq (by simp) (by simp [hc]) (by simp)]
  congr 1
  show 10 * 0 + charVal c = charVal c
  omega

lemma digit13V_lt (l : List Char) : digit13V l < 10 :=
  Nat.mod_lt _ (by norm_num)

lemma digit10V_lt (l : List Char) : digit10V l < 11 :=
  Nat.mod_lt _ (by norm_num)

lemma digit13V_take12 (l : List Char) : digit13V (l.take 12) = digit13V l := by
  unfold digit13V
  rw [List.take_take]
  simp

/-! ### Constructor branch evaluation -/

lemma new13_eval {nid : List Char} (hlen : nid.length = 13)
    (hdig : nid.all isDigitCh = true) {c : Char} (hc : nid.drop 12 = [c]) :
    new13 nid =
      some (if nid.take 3 ≠ p978 ∧ nid.take 3 ≠ p979 then
          Except.error ISBNError.Bookland
        else if charVal c = digit13V nid then Except.ok ⟨nid⟩
        else Except.error ISBNError.CheckDigit) := by
  have hs0 : slice nid 0 3 = some (nid.take 3) := slice_zero (by omega)
  have hs12 : slice nid 12 13 = some [c] := by
    rw [slice_eq (by omega) (by omega), hc]
    rfl
  have hcdig : isDigitCh c = true := by
    have hmem : c ∈ nid := by
      have h1 : c ∈ nid.drop 12 := by rw [hc]; simp
      exact List.drop_subset 12 nid h1
    exact List.all_eq_true.mp hdig c hmem
  have h12d : (nid.take 12).all isDigitCh = true := by
    rw [List.all_eq_true]
    intro d hd
    exact List.all_eq_true.mp hdig d (List.take_subset 12 nid hd)
  have h13 : digit13 nid = some (digit13V nid) := digit13_some h12d (by omega)
  by_cases hpre : nid.take 3 ≠ p978 ∧ nid.take 3 ≠ p979
  · simp only [new13, hs0, if_pos hpre]
  · simp only [new13, hs0, hs12, parseU64_single hcdig, h13, if_neg hpre]
    by_cases hcd : charVal c = digit13V nid
    · simp [hcd]
    · simp [hcd]

lemma new10_facts {nid : List Char} (hlen : nid.length = 10)
    (h9 : (nid.take 9).all isDigitCh = true) :
    slice nid 0 9 = some (nid.take 9) ∧
      digit10 nid = some (digit10V nid) ∧
      digit13 (p978 ++ nid.take 9) = some (digit13V (p978 ++ nid.take 9)) := by
  refine ⟨slice_zero (by omega), digit10_some h9 (by omega), ?_⟩
  have hlen9 : (nid.take 9).length = 9 := by
    rw [List.length_take]
    omega
  have hl : (p978 ++ nid.take 9).length = 12 := by
    simp [p978, hlen9]
  have h12d : ((p978 ++ nid.take 9).take 12).all isDigitCh = true := by
    rw [show (12 : Nat) = (p978 ++ nid.take 9).length from hl.symm,
      List.take_length, List.all_append]
    refine (Bool.and_eq_true _ _).mpr ⟨by decide, h9⟩
  exact digit13_some h12d (by omega)

lemma new10_eval_X {nid : List Char} (hlen : nid.length = 10)
    (h9 : (nid.take 9).all isDigitCh = true) (hc : nid.drop 9 = ['X']) :
    new10 nid =
      some (if digit10V nid = 10 then
          Except.ok ⟨p978 ++ nid.take 9 ++
            natToDigits (digit13V (p978 ++ nid.take 9))⟩
        else Except.error ISBNError.CheckDigit) := by
  obtain ⟨hs0, h10, h13⟩ := new10_facts hlen h9
  have hs9 : slice nid 9 10 = some ['X'] := by
    rw [slice_eq (by omega) (by omega), hc]
    rfl
  by_cases hd : digit10V nid = 10
  · have hd2 : ¬(10 ≠ digit10V nid) := by omega
    simp only [new10, hs0, hs9, h10, h13, if_pos rfl, if_neg hd2, if_pos hd,
      if_true]
  · have hd2 : (10 : Nat) ≠ digit10V nid := by omega
    simp only [new10, hs0, hs9, h10, if_pos rfl, if_pos hd2, if_neg hd,
      if_true]

lemma new10_eval_digit {nid : List Char} (hlen : nid.length = 10)
    (h9 : (nid.take 9).all isDigitCh = true) {c : Char}
    (hc : nid.drop 9 = [c]) (hcd : isDigitCh c = true) :
    new10 nid =
      some (if charVal c = digit10V nid then
          Except.ok ⟨p978 ++ nid.take 9 ++
            natToDigits (digit13V (p978 ++ nid.take 9))⟩
        else Except.error ISBNError.CheckDigit) := by
  obtain ⟨hs0, h10, h13⟩ := new10_facts hlen h9
  have hs9 : slice nid 9 10 = some [c] := by
    rw [slice_eq (by omega) (by omega), hc]
    rfl
  have hX : ¬([c] = ['X']) := by
    simp only [List.cons.injEq, and_true]
    exact digit_ne_X hcd
  by_cases he : charVal c = digit10V nid
  · have he2 : ¬(charVal c ≠ digit10V nid) := by omega
    simp only [new10, hs0, hs9, parseU64_single hcd, h10, h13, if_neg hX,
      if_neg he2, if_pos he]
  · have he2 : charVal c ≠ digit10V nid := he
    simp only [new10, hs0, hs9, parseU64_single hcd, h10, if_neg hX,
      if_pos he2, if_neg he]

lemma newStripped_13 {nid : List Char} (h : nid.length = 13) :
    newStripped nid = new13 nid := by
  simp [newStripped, h]

lemma newStripped_10 {nid : List Char} (h : nid.length = 10) :
    newStripped nid = new10 nid := by
  simp [newStripped, h]

lemma new_pass {raw : List Char} (ha : isAsciiStr raw = true)
    (hf : matchFormat raw = true) :
    new raw = newStripped (stripISBN raw) := by
  simp [new, ha, hf]

lemma new_fail {raw : List Char}
    (h : ¬(isAsciiStr raw = true ∧ matchFormat raw = true)) :
    new raw = some (Except.error ISBNError.Format) := by
  rw [new, if_pos]
  by_cases ha : isAsciiStr raw = true
  · by_cases hf : matchFormat raw = true
    · exact absurd ⟨ha, hf⟩ h
    · simp [hf]
  · simp [ha]

/-! ### Inversion of a successful construction -/

lemma new_ok_cases {raw : List Char} {x : ISBN}
    (h : new raw = some (Except.ok x)) :
    isAsciiStr raw = true ∧ matchFormat raw = true ∧
      (((stripISBN raw).length = 13 ∧ (stripISBN raw).all isDigitCh = true ∧
          x.id = stripISBN raw ∧
          ((stripISBN raw).take 3 = p978 ∨ (stripISBN raw).take 3 = p979) ∧
          ∃ c, (stripISBN raw).drop 12 = [c] ∧ isDigitCh c = true ∧
            charVal c = digit13V (stripISBN raw)) ∨
        ((stripISBN raw).length = 10 ∧
          ((stripISBN raw).take 9).all isDigitCh = true ∧
          x.id = p978 ++ (stripISBN raw).take 9 ++
            natToDigits (digit13V (p978 ++ (stripISBN raw).take 9)))) := by
  by_cases hg : isAsciiStr raw = true ∧ matchFormat raw = true
  case neg =>
    rw [new_fail hg] at h
    simp at h
  obtain ⟨ha, hf⟩ := hg
  refine ⟨ha, hf, ?_⟩
  rw [new_pass ha hf] at h
  rcases format_strip hf with ⟨hlen, h9, c, hc, hcx⟩ | ⟨hlen, hdig⟩
  · right
    rw [newStripped_10 hlen] at h
    rcases hcx with hcd | hX
    · rw [new10_eval_digit hlen h9 hc hcd] at h
      by_cases he : charVal c = digit10V (stripISBN raw)
      · rw [if_pos he] at h
        simp only [Option.some.injEq, Except.ok.injEq] at h
        exact ⟨hlen, h9, by rw [← h]⟩
      · rw [if_neg he] at h
        simp at h
    · subst hX
      rw [new10_eval_X hlen h9 hc] at h
      by_cases he : digit10V (stripISBN raw) = 10
      · rw [if_pos he] at h
        simp only [Option.some.injEq, Except.ok.injEq] at h
        exact ⟨hlen, h9, by rw [← h]⟩
      · rw [if_neg he] at h
        simp at h
  · left
    rw [newStripped_13 hlen] at h
    have hc1 : ((stripISBN raw).drop 12).length = 1 := by
      rw [List.length_drop, hlen]
    obtain ⟨c, hc⟩ := List.length_eq_one.mp hc1
    have hcdig : isDigitCh c = true := by
      have hmem : c ∈ stripISBN raw := by
        have h1 : c ∈ (stripISBN raw).drop 12 := by rw [hc]; simp
        exact List.drop_subset 12 _ h1
      exact List.all_eq_true.mp hdig c hmem
    rw [new13_eval hlen hdig hc] at h
    by_cases hpre : (stripISBN raw).take 3 ≠ p978 ∧ (stripISBN raw).take 3 ≠ p979
    · rw [if_pos hpre] at h
      simp at h
    · rw [if_neg hpre] at h
      have hpre2 : (stripISBN raw).take 3 = p978 ∨ (stripISBN raw).take 3 = p979 := by
        rcases not_and_or.mp hpre with h1 | h1
        · exact Or.inl (not_not.mp h1)
        · exact Or.inr (not_not.mp h1)
      by_cases hcd : charVal c = digit13V (stripISBN raw)
      · rw [if_pos hcd] at h
        simp only [Option.some.injEq, Except.ok.injEq] at h
        exact ⟨hlen, hdig, by rw [← h], hpre2, c, hc, hcdig, hcd⟩
      · rw [if_neg hcd] at h
        simp at h

/-- Every successfully constructed value satisfies the canonical-string
invariant. -/
lemma new_ok_inv {raw : List Char} {x : ISBN}
    (h : new raw = some (Except.ok x)) : InvP x.id := by
  obtain ⟨_, _, hcase⟩ := new_ok_cases h
  rcases hcase with ⟨hlen, hdig, hid, hpre2, c, hc, hcdig, hcd⟩ |
    ⟨hlen, h9, hid⟩
  · refine ⟨by rw [hid, hlen], by rw [hid]; exact hdig,
      by rw [hid]; exact hpre2, ?_⟩
    have hkey : Char.ofNat (48 + digit13V (stripISBN raw)) = c := by
      have h1 := char_eta hcdig
      rw [hcd] at h1
      exact h1
    rw [hid, hc, hkey]
  · have hlen9 : ((stripISBN raw).take 9).length = 9 := by
      rw [List.length_take]
      omega
    have hd10 : digit13V (p978 ++ (stripISBN raw).take 9) < 10 :=
      digit13V_lt _
    have hnd : natToDigits (digit13V (p978 ++ (stripISBN raw).take 9)) =
        [Char.ofNat (48 + digit13V (p978 ++ (stripISBN raw).take 9))] :=
      natToDigits_lt10 hd10
    have hlen12 : (p978 ++ (stripISBN raw).take 9).length = 12 := by
      simp [p978, hlen9]
    have hassoc : x.id = (p978 ++ (stripISBN raw).take 9) ++
        [Char.ofNat (48 + digit13V (p978 ++ (stripISBN raw).take 9))] := by
      rw [hid, hnd]
    have htake12 : x.id.take 12 = p978 ++ (stripISBN raw).take 9 := by
      rw [hassoc, List.take_left' hlen12]
    have hdV : digit13V x.id = digit13V (p978 ++ (stripISBN raw).take 9) := by
      rw [← digit13V_take12 x.id, htake12]
    refine ⟨?_, ?_, ?_, ?_⟩
    · rw [hassoc, List.length_append, hlen12]
      rfl
    · rw [hassoc, List.all_append]
      refine (Bool.and_eq_true _ _).mpr ⟨?_, ?_⟩
      · rw [List.all_append]
        refine (Bool.and_eq_true _ _).mpr ⟨by decide, h9⟩
      · simp [digitChar_isDigit hd10]
    · left
      rw [hassoc, List.append_assoc]
      exact List.take_left' (by decide)
    · rw [hdV, hassoc, List.drop_left' hlen12]

/-! ### The isbn10 accessor -/

lemma isbn10_not978 {x : ISBN} (h3 : 3 ≤ x.id.length)
    (h : x.id.take 3 ≠ p978) :
    isbn10 x = some (Except.error ISBNError.Bookland) := by
  simp only [isbn10, slice_zero h3, if_pos h]

lemma isbn10_978 {x : ISBN} (hlen : x.id.length = 13)
    (hdig : x.id.all isDigitCh = true) (h : x.id.take 3 = p978) :
    isbn10 x = some (Except.ok ((x.id.drop 3).take 9 ++
      (if digit10V ((x.id.drop 3).take 9) = 10 then ['X']
       else natToDigits (digit10V ((x.id.drop 3).take 9))))) := by
  have hs0 : slice x.id 0 3 = some (x.id.take 3) := slice_zero (by omega)
  have hs312 : slice x.id 3 12 = some ((x.id.drop 3).take 9) :=
    slice_eq (by omega) (by omega)
  have hblen : ((x.id.drop 3).take 9).length = 9 := by
    rw [List.length_take, List.length_drop, hlen]
    decide
  have hbdig : ((x.id.drop 3).take 9).all isDigitCh = true := by
    rw [List.all_eq_true]
    intro d hd
    exact List.all_eq_true.mp hdig d
      (List.drop_subset 3 x.id (List.take_subset 9 _ hd))
  have hbtake : ((x.id.drop 3).take 9).take 9 = (x.id.drop 3).take 9 :=
    List.take_of_length_le (le_of_eq hblen)
  have h10 : digit10 ((x.id.drop 3).take 9) =
      some (digit10V ((x.id.drop 3).take 9)) := by
    refine digit10_some ?_ (by omega)
    rw [hbtake]
    exact hbdig
  have hnot : ¬(x.id.take 3 ≠ p978) := by simp [h]
  by_cases hk : digit10V ((x.id.drop 3).take 9) = 10
  · simp only [isbn10, hs0, if_neg hnot, hs312, h10, if_pos hk]
  · simp only [isbn10, hs0, if_neg hnot, hs312, h10, if_neg hk]

/-! ### Reconstruction from a ten-character form -/

/-- Running the constructor on nine digits followed by a digit or an X:
the format check passes, stripping is the identity, and the length-10
branch decides purely on the `digit10` check value. -/
lemma new_body_eval {body : List Char} (hblen : body.length = 9)
    (hbdig : body.all isDigitCh = true) {cc : Char}
    (hccx : isDigitCh cc = true ∨ cc = 'X') :
    new (body ++ [cc]) =
      some (if (if cc = 'X' then digit10V (body ++ [cc]) = 10
                else charVal cc = digit10V (body ++ [cc])) then
          Except.ok ⟨p978 ++ body ++ natToDigits (digit13V (p978 ++ body))⟩
        else Except.error ISBNError.CheckDigit) := by
  have htlen : (body ++ [cc]).length = 10 := by
    simp [hblen]
  have htake9 : (body ++ [cc]).take 9 = body := List.take_left' hblen
  have hdrop9 : (body ++ [cc]).drop 9 = [cc] := List.drop_left' hblen
  have h9 : ((body ++ [cc]).take 9).all isDigitCh = true := by
    rw [htake9]
    exact hbdig
  have hmem : ∀ c ∈ body ++ [cc], isDigitCh c = true ∨ c = 'X' := by
    intro c hcm
    rcases List.mem_append.mp hcm with hcm | hcm
    · exact Or.inl (List.all_eq_true.mp hbdig c hcm)
    · rw [List.mem_singleton] at hcm
      subst hcm
      exact hccx
  have hascii : isAsciiStr (body ++ [cc]) = true := by
    rw [isAsciiStr, List.all_eq_true]
    intro c hcm
    rcases hmem c hcm with hd | hX
    · rcases isDigitCh_iff.mp hd with ⟨_, h2⟩
      simp only [isAsciiCh, decide_eq_true_eq]
      omega
    · subst hX
      decide
  have hnosep : ∀ c ∈ body ++ [cc], isSep c = false := by
    intro c hcm
    rcases hmem c hcm with hd | hX
    · exact digit_not_sep hd
    · subst hX
      decide
  have hfmt : matchFormat (body ++ [cc]) = true := by
    simp only [matchFormat,
      dropUnits_digits 9 (body ++ [cc]) h9 (by omega) hnosep, hdrop9]
    rcases hccx with hd | hX
    · simp [tailMatch, isDigit1, hd]
    · subst hX
      decide
  have hstrip : stripISBN (body ++ [cc]) = body ++ [cc] := strip_id hmem
  rw [new_pass hascii hfmt, hstrip, newStripped_10 htlen]
  by_cases hX : cc = 'X'
  · subst hX
    rw [new10_eval_X htlen h9 hdrop9, htake9]
    simp
  · rw [new10_eval_digit htlen h9 hdrop9 (hccx.resolve_right hX), htake9]
    simp [hX]

/-- Round trip at the level of the canonical string: a 978-prefixed
identifier satisfying the invariant converts to a ten-character form whose
reconstruction is the very same identifier. -/
lemma roundtrip {x : ISBN} (hInv : InvP x.id) (h978 : x.id.take 3 = p978) :
    ∃ t, isbn10 x = some (Except.ok t) ∧ new t = some (Except.ok x) := by
  obtain ⟨hlen, hdig, _, hdrop⟩ := hInv
  have hblen : ((x.id.drop 3).take 9).length = 9 := by
    rw [List.length_take, List.length_drop, hlen]
    decide
  have hbdig : ((x.id.drop 3).take 9).all isDigitCh = true := by
    rw [List.all_eq_true]
    intro d hd
    exact List.all_eq_true.mp hdig d
      (List.drop_subset 3 x.id (List.take_subset 9 _ hd))
  have hbtake : ((x.id.drop 3).take 9).take 9 = (x.id.drop 3).take 9 :=
    List.take_of_length_le (le_of_eq hblen)
  have hdteq : ∀ c : Char, digit10V ((x.id.drop 3).take 9 ++ [c]) =
      digit10V ((x.id.drop 3).take 9) := by
    intro c
    unfold digit10V
    rw [List.take_left' hblen, hbtake]
  have htake12 : x.id.take 12 = p978 ++ (x.id.drop 3).take 9 := by
    rw [show (12 : Nat) = 3 + 9 from rfl, List.take_add, h978]
  have hdV : digit13V (p978 ++ (x.id.drop 3).take 9) = digit13V x.id := by
    rw [← htake12, digit13V_take12]
  have hA : p978 ++ (x.id.drop 3).take 9 ++
      natToDigits (digit13V (p978 ++ (x.id.drop 3).take 9)) = x.id := by
    rw [hdV, natToDigits_lt10 (digit13V_lt x.id), ← htake12, ← hdrop]
    exact List.take_append_drop 12 x.id
  refine ⟨(x.id.drop 3).take 9 ++
    (if digit10V ((x.id.drop 3).take 9) = 10 then ['X']
     else natToDigits (digit10V ((x.id.drop 3).take 9))),
    isbn10_978 hlen hdig h978, ?_⟩
  by_cases hk : digit10V ((x.id.drop 3).take 9) = 10
  · rw [if_pos hk, new_body_eval hblen hbdig (Or.inr rfl)]
    rw [if_pos (by rw [if_pos rfl, hdteq]; exact hk)]
    rw [hA]
  · have hk10 : digit10V ((x.id.drop 3).take 9) < 10 := by
      have := digit10V_lt ((x.id.drop 3).take 9)
      omega
    have hcd : isDigitCh (Char.ofNat (48 + digit10V ((x.id.drop 3).take 9)))
        = true := digitChar_isDigit hk10
    rw [if_neg hk, natToDigits_lt10 hk10,
      new_body_eval hblen hbdig (Or.inl hcd)]
    rw [if_pos (by
      rw [if_neg (digit_ne_X hcd), hdteq]
      exact charVal_digitChar hk10)]
    rw [hA]

/-! ### Claim theorems -/

/-- C1, counterexample: the claim says `digit10` weights the digit at
position `i`, 1-indexed from the LEFT, by `10 - i`. On the nine digits
012345672 that formula yields 4, while `digit10` as written in the source
(which peels digits from the right) yields 10, so the claim as stated is
false. -/
theorem c1_counterexample :
    digit10 ("012345672".toList) = some 10 ∧
      digit10SpecLeft ("012345672".toList) = 4 ∧
      digit10 ("012345672".toList) ≠
        some (digit10SpecLeft ("012345672".toList)) :=
  ⟨by decide, by decide, by decide⟩

/-- C1, amended: for every string of 9 ASCII digits, `digit10` weights the
digit at position `i`, 1-indexed from the RIGHT, by `10 - i` — equivalently
the digit at position `i` from the left receives weight `i`, which is what
`weightedSum10 1` computes — and returns the weighted sum mod 11; a result
of 10 is rendered by the caller `isbn10` as the single character X, never
as two characters. -/
theorem c1_digit10_weights :
    (∀ l : List Char, l.length = 9 → l.all isDigitCh = true →
      digit10 l = some (weightedSum10 1 l % 11)) ∧
    (∀ x : ISBN, x.id.take 3 = p978 →
      digit10 ((x.id.drop 3).take 9) = some 10 →
      isbn10 x = some (Except.ok ((x.id.drop 3).take 9 ++ ['X']))) := by
  constructor
  · intro l hlen hdig
    have htake : l.take 9 = l := List.take_of_length_le (le_of_eq hlen)
    have h := digit10_some (by rw [htake]; exact hdig) (by omega)
    rw [h]
    unfold digit10V
    rw [htake]
    have hp := loop10_parse hdig 0
    rw [hlen] at hp
    rw [hp, Nat.zero_add]
  · intro x hpre h10
    by_cases h9b : 9 ≤ ((x.id.drop 3).take 9).length
    case neg =>
      exfalso
      have hnone : slice ((x.id.drop 3).take 9) 0 9 = none := by
        rw [slice, if_neg]
        intro hcon
        exact h9b hcon.2
      rw [digit10, hnone] at h10
      simp at h10
    have hlen12 : 12 ≤ x.id.length := by
      rw [List.length_take, List.length_drop] at h9b
      omega
    have hs0 : slice x.id 0 3 = some (x.id.take 3) := slice_zero (by omega)
    have hs312 : slice x.id 3 12 = some ((x.id.drop 3).take 9) :=
      slice_eq (by omega) (by omega)
    have hnot : ¬(x.id.take 3 ≠ p978) := by simp [hpre]
    simp only [isbn10, hs0, if_neg hnot, hs312, h10, if_pos rfl, if_true]

/-- Witness for C1: the amended statement evaluated at the nine digits
012345672 and at the identifier 9780123456724. -/
theorem c1_witness :
    digit10 ("012345672".toList) =
        some (weightedSum10 1 ("012345672".toList) % 11) ∧
      isbn10 ⟨"9780123456724".toList⟩ =
        some (Except.ok
          ((("9780123456724".toList : List Char).drop 3).take 9 ++ ['X'])) :=
  ⟨c1_digit10_weights.1 _ (by decide) (by decide),
    c1_digit10_weights.2 ⟨"9780123456724".toList⟩ (by decide) (by decide)⟩

/-- C2: for every string of 12 ASCII digits, `digit13` weights the digits
with alternating weights 1, 3, 1, 3 and so on starting at position 1 from
the left (this is `weightedSum13 0`), sums them, and returns
`(10 - (sum mod 10)) mod 10`; moreover the code expression
`(100000000000000000 - d) % 10` equals `(10 - d % 10) % 10` for every sum
`d` the loop can produce, whatever the parsed number. -/
theorem c2_digit13_weights :
    (∀ l : List Char, l.length = 12 → l.all isDigitCh = true →
      digit13 l = some ((10 - weightedSum13 0 l % 10) % 10)) ∧
    (∀ n : Nat, (100000000000000000 - loop13 12 n 0) % 10 =
      (10 - loop13 12 n 0 % 10) % 10) := by
  constructor
  · intro l hlen hdig
    have htake : l.take 12 = l := List.take_of_length_le (le_of_eq hlen)
    have h := digit13_some (by rw [htake]; exact hdig) (by omega)
    rw [h]
    unfold digit13V
    rw [htake, kludge_mod]
    have hp := loop13_parse hdig 0
    rw [hlen] at hp
    rw [hp, Nat.zero_add]
  · exact kludge_mod

/-- Witness for C2: the formula evaluated at the twelve digits of the
identifier 9781593273880. -/
theorem c2_witness :
    digit13 ("978159327388".toList) =
      some ((10 - weightedSum13 0 ("978159327388".toList) % 10) % 10) :=
  c2_digit13_weights.1 _ (by decide) (by decide)

/-- C3: on a raw input whose stripped form has length 10, the constructor
accepts a tenth character X exactly when `digit10` of the whole stripped
string (which reads its first nine digits) is 10, accepts a tenth digit
exactly when its value equals that check value, fails with CheckDigit
otherwise, and on success stores `"978" + first9` followed by the freshly
computed `digit13` of that twelve-digit body. -/
theorem c3_constructor_len10 :
    ∀ raw : List Char, isAsciiStr raw = true → matchFormat raw = true →
    (stripISBN raw).length = 10 →
    (((stripISBN raw).drop 9 = ['X'] →
      (digit10V (stripISBN raw) = 10 →
        new raw = some (Except.ok ⟨p978 ++ (stripISBN raw).take 9 ++
          natToDigits (digit13V (p978 ++ (stripISBN raw).take 9))⟩)) ∧
      (digit10V (stripISBN raw) ≠ 10 →
        new raw = some (Except.error ISBNError.CheckDigit))) ∧
     (∀ c : Char, (stripISBN raw).drop 9 = [c] → isDigitCh c = true →
      (charVal c = digit10V (stripISBN raw) →
        new raw = some (Except.ok ⟨p978 ++ (stripISBN raw).take 9 ++
          natToDigits (digit13V (p978 ++ (stripISBN raw).take 9))⟩)) ∧
      (charVal c ≠ digit10V (stripISBN raw) →
        new raw = some (Except.error ISBNError.CheckDigit)))) := by
  intro raw ha hf hlen
  have h9 : ((stripISBN raw).take 9).all isDigitCh = true := by
    rcases format_strip hf with ⟨_, h9, _⟩ | ⟨hlen13, _⟩
    · exact h9
    · exfalso
      omega
  constructor
  · intro hX
    constructor
    · intro hd
      rw [new_pass ha hf, newStripped_10 hlen, new10_eval_X hlen h9 hX,
        if_pos hd]
    · intro hd
      rw [new_pass ha hf, newStripped_10 hlen, new10_eval_X hlen h9 hX,
        if_neg hd]
  · intro c hc hcd
    constructor
    · intro he
      rw [new_pass ha hf, newStripped_10 hlen,
        new10_eval_digit hlen h9 hc hcd, if_pos he]
    · intro he
      rw [new_pass ha hf, newStripped_10 hlen,
        new10_eval_digit hlen h9 hc hcd, if_neg he]

/-- Witness for C3: the input 012345672X is accepted through the X branch
and stores the recomputed thirteen-digit canonical value. -/
theorem c3_witness :
    new ("012345672X".toList) = some (Except.ok
      ⟨p978 ++ (stripISBN ("012345672X".toList)).take 9 ++
        natToDigits (digit13V
          (p978 ++ (stripISBN ("012345672X".toList)).take 9))⟩) :=
  ((c3_constructor_len10 _ (by decide) (by decide) (by decide)).1
    (by decide)).1 (by decide)

/-- C4: every successfully constructed identifier stores a canonical value
of length exactly 13, all ASCII digits, beginning with 978 or 979, whose
thirteenth character is the `digit13` checksum of the first twelve; and the
accessor `isbn13` returns that stored value unchanged. -/
theorem c4_invariant :
    ∀ (raw : List Char) (x : ISBN), new raw = some (Except.ok x) →
      x.id.length = 13 ∧ x.id.all isDigitCh = true ∧
      (x.id.take 3 = p978 ∨ x.id.take 3 = p979) ∧
      x.id.drop 12 = [Char.ofNat (48 + digit13V x.id)] ∧
      isbn13 x = x.id := by
  intro raw x h
  obtain ⟨h1, h2, h3, h4⟩ := new_ok_inv h
  exact ⟨h1, h2, h3, h4, rfl⟩

/-- Witness for C4: the invariant evaluated on the identifier constructed
from 9780387308869. -/
theorem c4_witness :
    (ISBN.mk ("9780387308869".toList)).id.length = 13 ∧
      (ISBN.mk ("9780387308869".toList)).id.all isDigitCh = true ∧
      ((ISBN.mk ("9780387308869".toList)).id.take 3 = p978 ∨
        (ISBN.mk ("9780387308869".toList)).id.take 3 = p979) ∧
      (ISBN.mk ("9780387308869".toList)).id.drop 12 =
        [Char.ofNat (48 + digit13V (ISBN.mk ("9780387308869".toList)).id)] ∧
      isbn13 (ISBN.mk ("9780387308869".toList)) =
        (ISBN.mk ("9780387308869".toList)).id :=
  c4_invariant ("9780387308869".toList) _ (by rfl)

/-- C5: for every successfully constructed identifier whose canonical value
begins with 978, `isbn10` succeeds, constructing anew from its result
succeeds, and the new identifier has the same `isbn13` value. -/
theorem c5_roundtrip :
    ∀ (raw : List Char) (x : ISBN), new raw = some (Except.ok x) →
      x.id.take 3 = p978 →
      ∃ t, isbn10 x = some (Except.ok t) ∧
        ∃ y, new t = some (Except.ok y) ∧ isbn13 y = isbn13 x := by
  intro raw x h hpre
  obtain ⟨t, h1, h2⟩ := roundtrip (new_ok_inv h) hpre
  exact ⟨t, h1, x, h2, rfl⟩

/-- Witness for C5: the round trip run on the identifier constructed from
9780393334777. -/
theorem c5_witness :
    ∃ t, isbn10 (⟨"9780393334777".toList⟩ : ISBN) = some (Except.ok t) ∧
      ∃ y, new t = some (Except.ok y) ∧
        isbn13 y = isbn13 (⟨"9780393334777".toList⟩ : ISBN) :=
  c5_roundtrip ("9780393334777".toList) _ (by rfl) (by decide)

/-- C6: a well-formed 979-prefixed thirteen-digit input with a correct
check digit constructs successfully, and `isbn10` on the result fails with
Bookland; moreover the constructor itself never answers Bookland for any
input whose stripped form starts with 979. -/
theorem c6_bookland979 :
    (∀ (raw : List Char) (c : Char), isAsciiStr raw = true →
      matchFormat raw = true → (stripISBN raw).length = 13 →
      (stripISBN raw).take 3 = p979 → (stripISBN raw).drop 12 = [c] →
      charVal c = digit13V (stripISBN raw) →
      new raw = some (Except.ok ⟨stripISBN raw⟩) ∧
        isbn10 ⟨stripISBN raw⟩ = some (Except.error ISBNError.Bookland)) ∧
    (∀ raw : List Char, (stripISBN raw).take 3 = p979 →
      new raw ≠ some (Except.error ISBNError.Bookland)) := by
  constructor
  · intro raw c ha hf hlen hp hc hcd
    have hdig : (stripISBN raw).all isDigitCh = true := by
      rcases format_strip hf with ⟨hlen10, _⟩ | ⟨_, hdig⟩
      · exfalso
        omega
      · exact hdig
    have hnpre : ¬((stripISBN raw).take 3 ≠ p978 ∧
        (stripISBN raw).take 3 ≠ p979) := by
      intro hcon
      exact hcon.2 (by rw [hp])
    constructor
    · rw [new_pass ha hf, newStripped_13 hlen, new13_eval hlen hdig hc,
        if_neg hnpre, if_pos hcd]
    · refine isbn10_not978 (show 3 ≤ (stripISBN raw).length by omega) ?_
      show ¬((stripISBN raw).take 3 = p978)
      rw [hp]
      decide
  · intro raw hp hcon
    by_cases hg : isAsciiStr raw = true ∧ matchFormat raw = true
    case neg =>
      rw [new_fail hg] at hcon
      simp at hcon
    obtain ⟨ha, hf⟩ := hg
    rw [new_pass ha hf] at hcon
    rcases format_strip hf with ⟨hlen, h9, c, hc, hcx⟩ | ⟨hlen, hdig⟩
    · rw [newStripped_10 hlen] at hcon
      rcases hcx with hcd | hX
      · rw [new10_eval_digit hlen h9 hc hcd] at hcon
        by_cases he : charVal c = digit10V (stripISBN raw)
        · rw [if_pos he] at hcon
          simp at hcon
        · rw [if_neg he] at hcon
          simp at hcon
      · subst hX
        rw [new10_eval_X hlen h9 hc] at hcon
        by_cases he : digit10V (stripISBN raw) = 10
        · rw [if_pos he] at hcon
          simp at hcon
        · rw [if_neg he] at hcon
          simp at hcon
    · obtain ⟨c, hc⟩ := List.length_eq_one.mp
        (show ((stripISBN raw).drop 12).length = 1 by
          rw [List.length_drop, hlen])
      rw [newStripped_13 hlen, new13_eval hlen hdig hc] at hcon
      have hnpre : ¬((stripISBN raw).take 3 ≠ p978 ∧
          (stripISBN raw).take 3 ≠ p979) := by
        intro h2
        exact h2.2 (by rw [hp])
      rw [if_neg hnpre] at hcon
      by_cases hcd : charVal c = digit13V (stripISBN raw)
      · rw [if_pos hcd] at hcon
        simp at hcon
      · rw [if_neg hcd] at hcon
        simp at hcon

/-- Witness for C6: the valid 979 input 9799999999990 constructs and its
`isbn10` fails with Bookland; the constructor does not answer Bookland on
it. -/
theorem c6_witness :
    (new ("9799999999990".toList) =
        some (Except.ok ⟨stripISBN ("9799999999990".toList)⟩) ∧
      isbn10 ⟨stripISBN ("9799999999990".toList)⟩ =
        some (Except.error ISBNError.Bookland)) ∧
      new ("9799999999990".toList) ≠
        some (Except.error ISBNError.Bookland) :=
  ⟨c6_bookland979.1 _ '0' (by decide) (by decide) (by decide) (by decide)
      (by decide) (by decide),
    c6_bookland979.2 _ (by decide)⟩

/-- C7: for every constructed identifier, `hyphen` and `doi` fail with
Range exactly when the Range Segmenter reports a group length of 0;
otherwise, when the reported lengths add up to 9, `hyphen` joins the five
segments prefix, group, registrant, the publisher digits immediately
preceding the check digit, and the check digit with hyphens, and `doi`
formats `10.` prefix `.` group-plus-registrant `/` publisher-plus-check. -/
theorem c7_hyphen_doi :
    ∀ (seg : List Char → Nat × Nat × Nat) (raw : List Char) (x : ISBN)
      (g r p : Nat), new raw = some (Except.ok x) → seg x.id = (g, r, p) →
      ((hyphen seg x = some (Except.error ISBNError.Range) ↔ g = 0) ∧
       (doi seg x = some (Except.error ISBNError.Range) ↔ g = 0) ∧
       (g ≠ 0 → g + r + p = 9 →
         hyphen seg x = some (Except.ok (List.intercalate ['-']
           [x.id.take 3, (x.id.drop 3).take g, (x.id.drop (3 + g)).take r,
            (x.id.drop (12 - p)).take p, (x.id.drop 12).take 1])) ∧
         doi seg x = some (Except.ok ('1' :: '0' :: '.' :: x.id.take 3 ++
           '.' :: (x.id.drop 3).take (g + r) ++
           '/' :: (x.id.drop (12 - p)).take (p + 1))))) := by
  intro seg raw x g r p h hseg
  obtain ⟨hlen, _, _, _⟩ := new_ok_inv h
  refine ⟨?_, ?_, ?_⟩
  · constructor
    · intro hcon
      by_cases hg : g = 0
      · exact hg
      · exfalso
        rw [hyphen, hseg] at hcon
        simp only [if_neg hg] at hcon
        revert hcon
        cases slice x.id 0 3 <;> cases slice x.id 3 (3 + g) <;>
          cases slice x.id (3 + g) (3 + g + r) <;>
          cases slice x.id (12 - p) 12 <;> cases slice x.id 12 13 <;>
          simp
    · intro hg
      rw [hyphen, hseg]
      simp [hg]
  · constructor
    · intro hcon
      by_cases hg : g = 0
      · exact hg
      · exfalso
        rw [doi, hseg] at hcon
        simp only [if_neg hg] at hcon
        revert hcon
        cases slice x.id 0 3 <;> cases slice x.id 3 (3 + g + r) <;>
          cases slice x.id (12 - p) 13 <;> simp
    · intro hg
      rw [doi, hseg]
      simp [hg]
  · intro hg hsum
    have hs0 : slice x.id 0 3 = some (x.id.take 3) := slice_zero (by omega)
    have hs1 : slice x.id 3 (3 + g) = some ((x.id.drop 3).take g) := by
      rw [slice_eq (by omega) (by omega)]
      congr 1
      congr 1
      omega
    have hs2 : slice x.id (3 + g) (3 + g + r) =
        some ((x.id.drop (3 + g)).take r) := by
      rw [slice_eq (by omega) (by omega)]
      congr 1
      congr 1
      omega
    have hs3 : slice x.id (12 - p) 12 =
        some ((x.id.drop (12 - p)).take p) := by
      rw [slice_eq (by omega) (by omega)]
      congr 1
      congr 1
      omega
    have hs4 : slice x.id 12 13 = some ((x.id.drop 12).take 1) := by
      rw [slice_eq (by omega) (by omega)]
    have hs1' : slice x.id 3 (3 + g + r) =
        some ((x.id.drop 3).take (g + r)) := by
      rw [slice_eq (by omega) (by omega)]
      congr 1
      congr 1
      omega
    have hs2' : slice x.id (12 - p) 13 =
        some ((x.id.drop (12 - p)).take (p + 1)) := by
      rw [slice_eq (by omega) (by omega)]
      congr 1
      congr 1
      omega
    constructor
    · rw [hyphen, hseg]
      simp only [if_neg hg, hs0, hs1, hs2, hs3, hs4]
    · rw [doi, hseg]
      simp only [if_neg hg, hs0, hs1', hs2']

/-- Witness for C7: with a segmenter answering (1, 2, 6), the identifier
constructed from 012345672X hyphenates as 978-0-12-345672-4 and renders
the DOI form 10.978.012/3456724 — the shapes of the repository test
vectors. -/
theorem c7_witness :
    hyphen (fun _ => (1, 2, 6)) ⟨"9780123456724".toList⟩ =
        some (Except.ok ("978-0-12-345672-4".toList)) ∧
      doi (fun _ => (1, 2, 6)) ⟨"9780123456724".toList⟩ =
        some (Except.ok ("10.978.012/3456724".toList)) := by
  have h := (c7_hyphen_doi (fun _ => (1, 2, 6)) ("012345672X".toList)
    ⟨"9780123456724".toList⟩ 1 2 6 (by rfl) rfl).2.2 (by decide) (by decide)
  refine ⟨?_, ?_⟩
  · rw [h.1]
    rfl
  · rw [h.2]
    rfl

/-- C8, counterexample: the claim says `to13` of any successfully
constructed input equals the uppercased separator-stripped input. The
ten-character input 012345672X constructs successfully, yet its `isbn13`
value is the thirteen-character 9780123456724, not the stripped input. -/
theorem c8_counterexample :
    new ("012345672X".toList) =
        some (Except.ok ⟨"9780123456724".toList⟩) ∧
      isbn13 ⟨"9780123456724".toList⟩ ≠ stripISBN ("012345672X".toList) :=
  ⟨by rfl, by decide⟩

/-- C8, amended: for every raw input whose STRIPPED FORM HAS LENGTH 13 and
on which construction succeeds, `isbn13` of the result equals the
uppercased separator-stripped form of the input; for length-10 inputs the
stored value is instead the recomputed thirteen-digit form. -/
theorem c8_to13_stripped :
    ∀ (raw : List Char) (x : ISBN), new raw = some (Except.ok x) →
      (stripISBN raw).length = 13 → isbn13 x = stripISBN raw := by
  intro raw x h hlen
  obtain ⟨_, _, hcase⟩ := new_ok_cases h
  rcases hcase with ⟨_, _, hid, _⟩ | ⟨hlen10, _, _⟩
  · exact hid
  · exfalso
    omega

/-- Witness for C8: the thirteen-digit input 9781593273880. -/
theorem c8_witness :
    isbn13 (⟨"9781593273880".toList⟩ : ISBN) =
      stripISBN ("9781593273880".toList) :=
  c8_to13_stripped _ ⟨"9781593273880".toList⟩ (by rfl) (by decide)

/-- C9: `is_valid` is total — for every input it evaluates to a boolean
without reaching any panic (`none` in the model: the `unwrap` calls and the
asserted dead branch of the constructor are unreachable) — and every input
passing the ASCII plus format gate strips to length exactly 10 or 13. -/
theorem c9_total :
    ∀ raw : List Char,
      ((isAsciiStr raw = true ∧ matchFormat raw = true) →
        (stripISBN raw).length = 10 ∨ (stripISBN raw).length = 13) ∧
      (is_valid raw).isSome = true := by
  intro raw
  constructor
  · rintro ⟨_, hf⟩
    rcases format_strip hf with ⟨hlen, _⟩ | ⟨hlen, _⟩
    · exact Or.inl hlen
    · exact Or.inr hlen
  · rw [is_valid]
    by_cases hg : isAsciiStr raw = true ∧ matchFormat raw = true
    case neg =>
      rw [new_fail hg]
      rfl
    obtain ⟨ha, hf⟩ := hg
    rw [new_pass ha hf]
    rcases format_strip hf with ⟨hlen, h9, c, hc, hcx⟩ | ⟨hlen, hdig⟩
    · rw [newStripped_10 hlen]
      rcases hcx with hcd | hX
      · rw [new10_eval_digit hlen h9 hc hcd]
        simp
      · subst hX
        rw [new10_eval_X hlen h9 hc]
        simp
    · obtain ⟨c, hc⟩ := List.length_eq_one.mp
        (show ((stripISBN raw).drop 12).length = 1 by
          rw [List.length_drop, hlen])
      rw [newStripped_13 hlen, new13_eval hlen hdig hc]
      simp

/-- Witness for C9: evaluated at the ten-digit input 1593273886. -/
theorem c9_witness :
    ((stripISBN ("1593273886".toList)).length = 10 ∨
      (stripISBN ("1593273886".toList)).length = 13) ∧
    (is_valid ("1593273886".toList)).isSome = true :=
  ⟨(c9_total ("1593273886".toList)).1 ⟨by decide, by decide⟩,
    (c9_total ("1593273886".toList)).2⟩

/-- C10: for every constructed identifier, `isbn10` never produces the
CheckDigit error: it fails exactly when the canonical prefix is not 978,
and then with Bookland; for a 978 prefix it always succeeds — although the
Rust signature allows any `ISBNError`. -/
theorem c10_isbn10_errors :
    ∀ (raw : List Char) (x : ISBN), new raw = some (Except.ok x) →
      ((isbn10 x = some (Except.error ISBNError.Bookland) ↔
          x.id.take 3 ≠ p978) ∧
       (∀ e, isbn10 x = some (Except.error e) → e = ISBNError.Bookland) ∧
       (x.id.take 3 = p978 → ∃ s, isbn10 x = some (Except.ok s))) := by
  intro raw x h
  obtain ⟨hlen, hdig, _, _⟩ := new_ok_inv h
  by_cases hpre : x.id.take 3 = p978
  · have heval := isbn10_978 hlen hdig hpre
    refine ⟨⟨?_, ?_⟩, ?_, fun _ => ⟨_, heval⟩⟩
    · intro hcon
      rw [heval] at hcon
      simp at hcon
    · intro hcon
      exact absurd hpre hcon
    · intro e he
      rw [heval] at he
      simp at he
  · have heval := isbn10_not978 (by omega) hpre
    refine ⟨⟨fun _ => hpre, fun _ => heval⟩, ?_, fun hp => absurd hp hpre⟩
    intro e he
    rw [heval] at he
    simp only [Option.some.injEq, Except.error.injEq] at he
    exact he.symm

/-- Witness for C10: the 979 identifier built from 9790000000001 receives
Bookland from `isbn10`. -/
theorem c10_witness :
    isbn10 (⟨"9790000000001".toList⟩ : ISBN) =
      some (Except.error ISBNError.Bookland) :=
  (c10_isbn10_errors ("9790000000001".toList) ⟨"9790000000001".toList⟩
    (by rfl)).1.mpr (by decide)

end IsbnId
